import Mathlib

/-!
Verification of the CASM Orbit/Orbitree generation and symmetry-comparison
engine (clusterography).  The definitions below are shallow embeddings of
the C++ sources, chiefly
`include/casm/clusterography/Orbitree_impl.hh` and
`include/casm/clusterography/ClusterSymCompare_impl.hh`.
Floating-point lengths are modelled by rational numbers, machine indices by
naturals, and process termination (exit(1)) by the error channel of
`Except`.
-/

/-! ### Integral sites and clusters (IntegralCluster element type)

A site of an integral cluster is a UnitCellCoord: a sublattice index plus
an integer unit cell.  -/

structure UnitCell where
  i : ℤ
  j : ℤ
  k : ℤ
deriving DecidableEq

def UnitCell.add (u v : UnitCell) : UnitCell := ⟨u.i + v.i, u.j + v.j, u.k + v.k⟩

def UnitCell.sub (u v : UnitCell) : UnitCell := ⟨u.i - v.i, u.j - v.j, u.k - v.k⟩

def UnitCell.zero : UnitCell := ⟨0, 0, 0⟩

structure UnitCellCoord where
  b : ℕ
  cell : UnitCell
deriving DecidableEq

/-- Modelled from the spec: the ordering of integral sites used by
representation preparation (the comparison operator of UnitCellCoord is
not under src).  Lexicographic: sublattice index first, then the unit
cell indices. -/
def uccLe (s t : UnitCellCoord) : Prop :=
  s.b < t.b ∨ (s.b = t.b ∧ (s.cell.i < t.cell.i ∨ (s.cell.i = t.cell.i ∧
    (s.cell.j < t.cell.j ∨ (s.cell.j = t.cell.j ∧ s.cell.k ≤ t.cell.k)))))

instance : DecidableRel uccLe := fun s t => by unfold uccLe; infer_instance

instance : IsTotal UnitCellCoord uccLe := ⟨by intro s t; unfold uccLe; omega⟩

instance : IsTrans UnitCellCoord uccLe := ⟨by intro s t u h1 h2; unfold uccLe at h1 h2 ⊢; omega⟩

instance : IsAntisymm UnitCellCoord uccLe := ⟨by
  rintro ⟨sb, si, sj, sk⟩ ⟨tb, ti, tj, tk⟩ h1 h2
  unfold uccLe at h1 h2
  dsimp only at h1 h2
  have h : sb = tb ∧ si = ti ∧ sj = tj ∧ sk = tk := by omega
  obtain ⟨rfl, rfl, rfl, rfl⟩ := h
  rfl⟩

/-- Modelled from the spec: Element::sort of an integral cluster (not
under src): sort the sites into canonical lexicographic order. -/
def clusterSort (c : List UnitCellCoord) : List UnitCellCoord := List.insertionSort uccLe c

/-- Modelled from the spec: the bring_within functor for a diagonal
supercell transformation matrix: reduce each unit cell index modulo the
corresponding supercell dimension. -/
def UnitCell.bringWithin (n u : UnitCell) : UnitCell := ⟨u.i % n.i, u.j % n.j, u.k % n.k⟩

def UnitCellCoord.bringWithin (n : UnitCell) (s : UnitCellCoord) : UnitCellCoord :=
  ⟨s.b, UnitCell.bringWithin n s.cell⟩

/-! ### The four SymCompare variants (ClusterSymCompare_impl.hh) -/

/-- AperiodicSymCompare::spatial_prepare_impl: identity. -/
def AperiodicSymCompare.spatial_prepare_impl (obj : List UnitCellCoord) : List UnitCellCoord := obj

/-- AperiodicSymCompare::representation_prepare_impl: returns obj.sort(). -/
def AperiodicSymCompare.representation_prepare_impl (obj : List UnitCellCoord) :
    List UnitCellCoord := clusterSort obj

/-- PrimPeriodicSymCompare::spatial_prepare_impl: if the cluster is empty
return it; otherwise translate so that the position site (obj[0]) is in
the origin unit cell: obj - pos.unitcell(). -/
def PrimPeriodicSymCompare.spatial_prepare_impl (obj : List UnitCellCoord) :
    List UnitCellCoord :=
  match obj with
  | [] => obj
  | pos :: rest => (pos :: rest).map (fun s => ⟨s.b, UnitCell.sub s.cell pos.cell⟩)

/-- PrimPeriodicSymCompare::representation_prepare_impl: if the cluster is
empty return it; otherwise obj.sort(). -/
def PrimPeriodicSymCompare.representation_prepare_impl (obj : List UnitCellCoord) :
    List UnitCellCoord :=
  match obj with
  | [] => obj
  | _ :: _ => clusterSort obj

/-- ScelPeriodicSymCompare::spatial_prepare_impl: if the cluster is empty
return it; otherwise obj + (bring_within(pos).unitcell() - pos.unitcell())
with pos = obj[0]. -/
def ScelPeriodicSymCompare.spatial_prepare_impl (n : UnitCell) (obj : List UnitCellCoord) :
    List UnitCellCoord :=
  match obj with
  | [] => obj
  | pos :: rest => (pos :: rest).map
      (fun s => ⟨s.b, UnitCell.add s.cell (UnitCell.sub (UnitCell.bringWithin n pos.cell) pos.cell)⟩)

/-- ScelPeriodicSymCompare::representation_prepare_impl: if the cluster is
empty return it; otherwise obj.sort(). -/
def ScelPeriodicSymCompare.representation_prepare_impl (obj : List UnitCellCoord) :
    List UnitCellCoord :=
  match obj with
  | [] => obj
  | _ :: _ => clusterSort obj

/-- WithinScelSymCompare::spatial_prepare_impl: identity. -/
def WithinScelSymCompare.spatial_prepare_impl (obj : List UnitCellCoord) :
    List UnitCellCoord := obj

/-- WithinScelSymCompare::representation_prepare_impl: if the cluster is
empty return it; otherwise put all sites within the supercell, then
sort. -/
def WithinScelSymCompare.representation_prepare_impl (n : UnitCell) (obj : List UnitCellCoord) :
    List UnitCellCoord :=
  match obj with
  | [] => obj
  | _ :: _ => clusterSort (obj.map (UnitCellCoord.bringWithin n))

/-- The four SymCompare variants; the supercell-periodic and
within-supercell variants carry the (diagonal) supercell dimensions. -/
inductive SymCompareVariant where
  | aperiodic : SymCompareVariant
  | primPeriodic : SymCompareVariant
  | scelPeriodic : UnitCell → SymCompareVariant
  | withinScel : UnitCell → SymCompareVariant
deriving DecidableEq

def scSpatialPrepare : SymCompareVariant → List UnitCellCoord → List UnitCellCoord
  | .aperiodic, obj => AperiodicSymCompare.spatial_prepare_impl obj
  | .primPeriodic, obj => PrimPeriodicSymCompare.spatial_prepare_impl obj
  | .scelPeriodic n, obj => ScelPeriodicSymCompare.spatial_prepare_impl n obj
  | .withinScel _, obj => WithinScelSymCompare.spatial_prepare_impl obj

def scReprPrepare : SymCompareVariant → List UnitCellCoord → List UnitCellCoord
  | .aperiodic, obj => AperiodicSymCompare.representation_prepare_impl obj
  | .primPeriodic, obj => PrimPeriodicSymCompare.representation_prepare_impl obj
  | .scelPeriodic _, obj => ScelPeriodicSymCompare.representation_prepare_impl obj
  | .withinScel n, obj => WithinScelSymCompare.representation_prepare_impl n obj

/-- Modelled from the spec: the SymCompare prepare wrapper (not under
src) applies representation preparation and then spatial preparation, as
described by the in-source doc comments of the variants. -/
def scPrepare (v : SymCompareVariant) (obj : List UnitCellCoord) : List UnitCellCoord :=
  scSpatialPrepare v (scReprPrepare v obj)

/-! ### Orbits, branches and the Orbitree (Orbitree_impl.hh)

The enumeration claims are about control flow over abstract cluster
operations, so the tree machinery is parametrized by a site type and a
context of cluster operations.  -/

/-- Modelled from the spec: the cluster operations used by the Orbitree
enumeration whose implementations are not under src.  within reduces a
cluster to its canonical periodic image; max_length and min_length are
the derived invariants recomputed by calc_properties; equivC is the
group-equivalence test of GenericOrbit::contains; mkEquivs is
GenericOrbit::get_equivalent, producing the distinct equivalents of a
prototype under the acting group. -/
structure ClustCtx (Site : Type) where
  within : List Site → List Site
  max_length : List Site → ℚ
  min_length : List Site → ℚ
  equivC : List Site → List Site → Bool
  mkEquivs : List Site → List (List Site)

/-- An orbit: canonical prototype plus the list of distinct equivalents. -/
structure MOrbit (Site : Type) where
  prototype : List Site
  equivalents : List (List Site)
deriving DecidableEq

/-- Modelled from the spec: GenericOrbit::contains (not under src) tests
the cluster against every equivalent of the orbit by group
equivalence. -/
def MOrbit.containsClust {Site : Type} (ctx : ClustCtx Site) (o : MOrbit Site)
    (t : List Site) : Bool :=
  o.equivalents.any (fun e => ctx.equivC e t)

/-- Construct the orbit of a new prototype (GenericOrbit constructor
followed by get_equivalent). -/
def mkOrbit {Site : Type} (ctx : ClustCtx Site) (c : List Site) : MOrbit Site :=
  ⟨c, ctx.mkEquivs c⟩

/-- An orbit branch: all orbits whose prototype has num_sites sites. -/
structure MBranch (Site : Type) where
  num_sites : ℕ
  orbits : List (MOrbit Site)
deriving DecidableEq

/-- An orbitree is the ordered list of its branches. -/
abbrev MTree (Site : Type) := List (MBranch Site)

/-- GenericOrbitree::find(test_clust) (Orbitree_impl.hh lines 267-287):
walk the branches accumulating the linear index; inside a branch whose
num_sites matches the cluster size, return the accumulated index of the
first orbit that contains the cluster; if no branch matches, the sum of
all branch sizes (the total number of orbits) is returned. -/
def treeFind {Site : Type} (ctx : ClustCtx Site) : MTree Site → List Site → ℕ
  | [], _ => 0
  | br :: rest, t =>
    if br.num_sites = t.length then
      let j := br.orbits.findIdx (fun o => o.containsClust ctx t)
      if j < br.orbits.length then j
      else br.orbits.length + treeFind ctx rest t
    else br.orbits.length + treeFind ctx rest t

/-- GenericOrbitree::find(test_clust, nb) (lines 294-305): the index of
the first orbit of the branch containing the cluster, or the total
number of orbits in the branch if it is not found. -/
def treeFindInBranch {Site : Type} (ctx : ClustCtx Site) (br : MBranch Site)
    (t : List Site) : ℕ :=
  br.orbits.findIdx (fun o => o.containsClust ctx t)

/-- GenericOrbitree::contains (lines 334-342): true iff some branch
lookup succeeds (returns an index below the branch size). -/
def treeContains {Site : Type} (ctx : ClustCtx Site) (tree : MTree Site)
    (t : List Site) : Bool :=
  tree.any (fun br => treeFindInBranch ctx br t < br.orbits.length)

/-- The total number of orbits in the tree (the sentinel value of a
failed whole-tree find). -/
def totalOrbits {Site : Type} (tree : MTree Site) : ℕ :=
  (tree.map (fun br => br.orbits.length)).sum

/-- at(np).push_back(new_orbit): append an orbit to branch np. -/
def pushOrbitAt {Site : Type} : MTree Site → ℕ → MOrbit Site → MTree Site
  | [], _, _ => []
  | br :: rest, 0, o => ⟨br.num_sites, br.orbits ++ [o]⟩ :: rest
  | br :: rest, n + 1, o => br :: pushOrbitAt rest n o

/-- Branch np of the tree (at(np)); out-of-range reads give an empty
branch. -/
def branchAt {Site : Type} (tree : MTree Site) (n : ℕ) : MBranch Site :=
  tree.getD n ⟨n, []⟩

/-! #### The growth step of GenericOrbitree::generate_orbitree
(Orbitree_impl.hh lines 509-533): for a prototype of branch np-1 and a
candidate grid site, form the candidate cluster, reduce it with within()
and recompute its properties, then accept it as a new orbit iff the
nested if/else-if chain of the source does. -/

def candidateStep {Site : Type} (ctx : ClustCtx Site) (max_length : ℕ → ℚ)
    (min_length : ℚ) (np : ℕ) (tree : MTree Site) (proto : List Site) (s : Site) :
    MTree Site :=
  if np = 1 ∧ treeContains ctx tree (ctx.within (proto ++ [s])) = false then
    pushOrbitAt tree np (mkOrbit ctx (ctx.within (proto ++ [s])))
  else if ctx.max_length (ctx.within (proto ++ [s])) < max_length np ∧
      min_length < ctx.min_length (ctx.within (proto ++ [s])) ∧
      treeContains ctx tree (ctx.within (proto ++ [s])) = false then
    pushOrbitAt tree np (mkOrbit ctx (ctx.within (proto ++ [s])))
  else tree

/-- The same candidate step for generate_local_orbitree (lines
2452-2502): identical acceptance chain, but the candidate is not reduced
by within() (lengths are measured to the phenomenal cluster through the
context). -/
def candidateStepLocal {Site : Type} (ctx : ClustCtx Site) (max_length : ℕ → ℚ)
    (min_length : ℚ) (np : ℕ) (tree : MTree Site) (proto : List Site) (s : Site) :
    MTree Site :=
  if np = 1 ∧ treeContains ctx tree (proto ++ [s]) = false then
    pushOrbitAt tree np (mkOrbit ctx (proto ++ [s]))
  else if ctx.max_length (proto ++ [s]) < max_length np ∧
      min_length < ctx.min_length (proto ++ [s]) ∧
      treeContains ctx tree (proto ++ [s]) = false then
    pushOrbitAt tree np (mkOrbit ctx (proto ++ [s]))
  else tree

/-- One branch transition np-1 to np of generate_orbitree: every orbit of
branch np-1 contributes its prototype, and every grid site is tried
against the growing tree. -/
def growBranch {Site : Type} (ctx : ClustCtx Site) (max_length : ℕ → ℚ)
    (min_length : ℚ) (grid : List Site) (np : ℕ) (tree : MTree Site) : MTree Site :=
  ((branchAt tree (np - 1)).orbits.map (fun o => o.prototype)).foldl
    (fun tr p => grid.foldl (fun tr2 s => candidateStep ctx max_length min_length np tr2 p s) tr)
    tree

/-- The same branch transition for generate_local_orbitree. -/
def growBranchLocal {Site : Type} (ctx : ClustCtx Site) (max_length : ℕ → ℚ)
    (min_length : ℚ) (grid : List Site) (np : ℕ) (tree : MTree Site) : MTree Site :=
  ((branchAt tree (np - 1)).orbits.map (fun o => o.prototype)).foldl
    (fun tr p => grid.foldl (fun tr2 s => candidateStepLocal ctx max_length min_length np tr2 p s) tr)
    tree

/-- The np loop of generate_orbitree (lines 490-535): before growing
branch np, if branch np-1 is empty the enumeration prints a CRITICAL
ERROR and calls exit(1), modelled by the error channel carrying the
branch size np that could not be enumerated. -/
def growLoop {Site : Type} (ctx : ClustCtx Site) (max_length : ℕ → ℚ)
    (min_length : ℚ) (grid : List Site) : List ℕ → MTree Site → Except ℕ (MTree Site)
  | [], tree => Except.ok tree
  | np :: rest, tree =>
    if (branchAt tree (np - 1)).orbits.length = 0 then Except.error np
    else growLoop ctx max_length min_length grid rest
      (growBranch ctx max_length min_length grid np tree)

/-- The np loop of generate_local_orbitree (lines 2429-2504): on an empty
branch np-1 it prints a WARNING and returns the tree built so far (the
exit(1) is commented out in the source). -/
def growLoopLocal {Site : Type} (ctx : ClustCtx Site) (max_length : ℕ → ℚ)
    (min_length : ℚ) (grid : List Site) : List ℕ → MTree Site → MTree Site
  | [], tree => tree
  | np :: rest, tree =>
    if (branchAt tree (np - 1)).orbits.length = 0 then tree
    else growLoopLocal ctx max_length min_length grid rest
      (growBranchLocal ctx max_length min_length grid np tree)

/-! #### The fixed max-cluster-count mode
(generate_orbitree(const Structure &, const int maxClust), lines
560-744). -/

/-- The do-while grid growth of the maxClust mode (lines 630-674): keep
enlarging the candidate grid (ctr counts the expansions) while fewer
than maxClust pair clusters have been found; numFound gives the number
of pair clusters found with a given number of expansions.  Fuel makes
the loop total; none models non-termination of the source loop. -/
def growGridLoop (numFound : ℕ → ℕ) (maxClust : ℕ) : ℕ → ℕ → Option ℕ
  | 0, _ => none
  | fuel + 1, ctr =>
    if maxClust ≤ numFound ctr then some ctr
    else growGridLoop numFound maxClust fuel (ctr + 1)

/-- The removal loop of the maxClust mode (lines 680-686): walk the
orbits from index maxClust onward and remove every orbit whose
max_length exceeds the cutoff (remove(i); i = i - 1). -/
def removeOverCutoff {Site : Type} (olen : MOrbit Site → ℚ) (cutOff : ℚ) :
    List (MOrbit Site) → List (MOrbit Site)
  | [] => []
  | o :: rest =>
    if cutOff < olen o then removeOverCutoff olen cutOff rest
    else o :: removeOverCutoff olen cutOff rest

/-- The truncation pass of the maxClust mode (lines 677-686): after
sorting, the cutoff is the max_length of the orbit at index maxClust-1,
and orbits from index maxClust onward are removed iff their max_length
exceeds the cutoff. -/
def maxClustTruncate {Site : Type} (olen : MOrbit Site → ℚ) (maxClust : ℕ)
    (orbits : List (MOrbit Site)) : List (MOrbit Site) :=
  let cutOff := olen (orbits.getD (maxClust - 1) ⟨[], []⟩)
  orbits.take maxClust ++ removeOverCutoff olen cutOff (orbits.drop maxClust)

/-! #### The hierarchy table (GenericOrbitree::get_hierarchy, lines
1430-1474). -/

/-- The subset masks enumerated by Counter(all-zeros, all-ones, ones):
an odometer over k binary digits with index 0 incrementing fastest, so
mask number m has bit i of m at list position i. -/
def subsetMasks (k : ℕ) : List (List Bool) :=
  (List.range (2 ^ k)).map (fun m => (List.range k).map (fun i => Nat.testBit m i))

/-- The sites of the prototype selected by a mask (the inner loop pushing
prototype[i] whenever site_counter()[i] is set). -/
def maskSites {Site : Type} (proto : List Site) (mask : List Bool) : List Site :=
  (proto.zip mask).filterMap (fun p => if p.2 then some p.1 else none)

/-- The hierarchy entries of one orbit exactly as get_hierarchy computes
them: tclust is declared once per orbit and never cleared, so the sites
of every enumerated subset accumulate in it across the counter loop; for
each non-empty, non-full mask the entry pushed is find() of the
accumulated cluster. -/
def getHierarchyOrbit {Site : Type} (ctx : ClustCtx Site) (tree : MTree Site)
    (proto : List Site) : List ℕ :=
  ((subsetMasks proto.length).foldl
    (fun (acc : List Site × List ℕ) mask =>
      if mask = List.replicate proto.length false ∨ mask = List.replicate proto.length true
      then acc
      else (acc.1 ++ maskSites proto mask,
            acc.2 ++ [treeFind ctx tree (acc.1 ++ maskSites proto mask)]))
    ([], [])).2

/-- Modelled from the spec: the intended hierarchy entries of one orbit:
for each proper non-empty, non-full subset of the prototype, in the same
binary-counter order, the entry is find() of that subset alone. -/
def getHierarchyOrbitSpec {Site : Type} (ctx : ClustCtx Site) (tree : MTree Site)
    (proto : List Site) : List ℕ :=
  (subsetMasks proto.length).foldl
    (fun (acc : List ℕ) mask =>
      if mask = List.replicate proto.length false ∨ mask = List.replicate proto.length true
      then acc
      else acc ++ [treeFind ctx tree (maskSites proto mask)])
    []

/-! #### Building from a user-supplied prototype file
(generate_orbitree_from_proto_file, lines 1280-1301). -/

/-- The diagnostic carried by the fatal exit of
generate_orbitree_from_proto_file: the offending prototype, its declared
equivalent count and the generated equivalent count. -/
structure ProtoMismatch (Site : Type) where
  proto : List Site
  declared : ℕ
  generated : ℕ

/-- The orbit-building loop of generate_orbitree_from_proto_file: for
every read prototype with its declared equivalent count, push the orbit
into the branch of its size and generate its equivalents; if the
declared count differs from the generated count, print the diagnostic
identifying the prototype and exit(1) (modelled by Except.error). -/
def generateFromProtoList {Site : Type} (ctx : ClustCtx Site) :
    List (List Site × ℕ) → MTree Site → Except (ProtoMismatch Site) (MTree Site)
  | [], tree => Except.ok tree
  | (p, ne) :: rest, tree =>
    let orb := mkOrbit ctx p
    let tree2 := pushOrbitAt tree p.length orb
    if ne ≠ orb.equivalents.length then
      Except.error ⟨p, ne, orb.equivalents.length⟩
    else generateFromProtoList ctx rest tree2

/-! #### Orbit generation under the acting group (spec 4.2)

GenericOrbit::get_equivalent and get_cluster_symmetry are not under src;
the construction is modelled from the spec over an arbitrary finite
group action, with prep the composite spatial/representation
preparation. -/

/-- Modelled from the spec: get_equivalent applies every group operation
to the seed, prepares each image, and deduplicates, keeping the
first-encountered representative per distinct image. -/
def orbitEquivalents {G C : Type} [Group G] [MulAction G C] [DecidableEq C]
    (prep : C → C) (gs : List G) (seed : C) : List C :=
  (gs.map (fun g => prep (g • seed))).dedup

/-- Modelled from the spec: the canonical prototype is the
compare_impl-minimum element of the deduplicated equivalents (cmp is the
strict comparison; the fold keeps the smallest element seen). -/
def orbitPrototype {C : Type} (cmp : C → C → Bool) (dflt : C) (equivs : List C) : C :=
  equivs.foldl (fun m x => if cmp x m then x else m) dflt

/-- Modelled from the spec: get_cluster_symmetry computes the invariant
subgroup (stabilizer) of the prototype: the group operations whose
prepared action on the prototype reproduces it. -/
def invariantSubgroupList {G C : Type} [Group G] [MulAction G C] [DecidableEq C]
    (prep : C → C) (gs : List G) (proto : C) : List G :=
  gs.filter (fun g => decide (prep (g • proto) = proto))

/-! #### Concrete instances used to witness the hypotheses of the
claim theorems. -/

/-- A trivial cluster context over natural-number sites: within is the
identity, the length invariants are the site count, equivalence is
literal equality, and the orbit of a cluster is just itself. -/
def natCtx : ClustCtx ℕ where
  within := id
  max_length := fun c => (c.length : ℚ)
  min_length := fun _ => 1
  equivC := fun a b => decide (a = b)
  mkEquivs := fun c => [c]

/-- A small concrete tree: the empty-cluster branch, a point branch with
orbits for sites 0 and 1, and a pair branch with the orbit of [0, 1]. -/
def natTree : MTree ℕ :=
  [⟨0, [⟨[], [[]]⟩]⟩,
   ⟨1, [⟨[0], [[0]]⟩, ⟨[1], [[1]]⟩]⟩,
   ⟨2, [⟨[0, 1], [[0, 1]]⟩]⟩]

/-- A tree whose pair branch is still empty. -/
def natTree0 : MTree ℕ :=
  [⟨0, [⟨[], [[]]⟩]⟩,
   ⟨1, [⟨[0], [[0]]⟩]⟩,
   ⟨2, []⟩]

/-- A tree holding only the empty-cluster orbit: the point and pair
branches are empty. -/
def natTree00 : MTree ℕ :=
  [⟨0, [⟨[], [[]]⟩]⟩,
   ⟨1, []⟩,
   ⟨2, []⟩]

/-! ### Helper lemmas for sorting and translation -/

theorem clusterSort_sorted (c : List UnitCellCoord) : (clusterSort c).Sorted uccLe :=
  List.sorted_insertionSort uccLe c

theorem clusterSort_perm (c : List UnitCellCoord) : List.Perm (clusterSort c) c :=
  List.perm_insertionSort uccLe c

theorem clusterSort_of_sorted {c : List UnitCellCoord} (h : c.Sorted uccLe) :
    clusterSort c = c :=
  List.Sorted.insertionSort_eq h

theorem clusterSort_length (c : List UnitCellCoord) : (clusterSort c).length = c.length :=
  (clusterSort_perm c).length_eq

theorem uccLe_shift_add (c : UnitCell) (s t : UnitCellCoord) :
    uccLe ⟨s.b, UnitCell.add s.cell c⟩ ⟨t.b, UnitCell.add t.cell c⟩ ↔ uccLe s t := by
  unfold uccLe UnitCell.add
  dsimp only
  omega

theorem uccLe_shift_sub (c : UnitCell) (s t : UnitCellCoord) :
    uccLe ⟨s.b, UnitCell.sub s.cell c⟩ ⟨t.b, UnitCell.sub t.cell c⟩ ↔ uccLe s t := by
  unfold uccLe UnitCell.sub
  dsimp only
  omega

theorem sorted_map_shift_add (c : UnitCell) {l : List UnitCellCoord} (h : l.Sorted uccLe) :
    (l.map (fun s => (⟨s.b, UnitCell.add s.cell c⟩ : UnitCellCoord))).Sorted uccLe :=
  List.Pairwise.map _ (fun a b hab => (uccLe_shift_add c a b).mpr hab) h

theorem sorted_map_shift_sub (c : UnitCell) {l : List UnitCellCoord} (h : l.Sorted uccLe) :
    (l.map (fun s => (⟨s.b, UnitCell.sub s.cell c⟩ : UnitCellCoord))).Sorted uccLe :=
  List.Pairwise.map _ (fun a b hab => (uccLe_shift_sub c a b).mpr hab) h

theorem map_shift_sub_zero (l : List UnitCellCoord) :
    l.map (fun s => (⟨s.b, UnitCell.sub s.cell UnitCell.zero⟩ : UnitCellCoord)) = l := by
  induction l with
  | nil => rfl
  | cons a t ih =>
      simp only [List.map_cons, ih]
      congr 1
      cases a with
      | mk b cell => cases cell; simp [UnitCell.sub, UnitCell.zero]

theorem map_shift_add_zero (l : List UnitCellCoord) :
    l.map (fun s => (⟨s.b, UnitCell.add s.cell UnitCell.zero⟩ : UnitCellCoord)) = l := by
  induction l with
  | nil => rfl
  | cons a t ih =>
      simp only [List.map_cons, ih]
      congr 1
      cases a with
      | mk b cell => cases cell; simp [UnitCell.add, UnitCell.zero]

theorem bringWithin_idem (n : UnitCell) (u : UnitCell) :
    UnitCell.bringWithin n (UnitCell.bringWithin n u) = UnitCell.bringWithin n u := by
  cases u
  simp [UnitCell.bringWithin, Int.emod_emod_of_dvd _ dvd_rfl]

theorem bringWithinSite_idem (n : UnitCell) (s : UnitCellCoord) :
    UnitCellCoord.bringWithin n (UnitCellCoord.bringWithin n s) = UnitCellCoord.bringWithin n s := by
  cases s
  simp [UnitCellCoord.bringWithin, bringWithin_idem]

theorem UnitCell.sub_self (u : UnitCell) : UnitCell.sub u u = UnitCell.zero := by
  cases u; simp [UnitCell.sub, UnitCell.zero]

theorem UnitCell.add_bw_shift (n u : UnitCell) :
    UnitCell.add u (UnitCell.sub (UnitCell.bringWithin n u) u) = UnitCell.bringWithin n u := by
  cases u; cases n
  simp only [UnitCell.add, UnitCell.sub, UnitCell.bringWithin, UnitCell.mk.injEq]
  omega

theorem prim_prepare_cons (a : UnitCellCoord) (l : List UnitCellCoord)
    (p : UnitCellCoord) (ys : List UnitCellCoord) (h : clusterSort (a :: l) = p :: ys) :
    scPrepare .primPeriodic (a :: l)
      = (p :: ys).map (fun s => ⟨s.b, UnitCell.sub s.cell p.cell⟩) := by
  show PrimPeriodicSymCompare.spatial_prepare_impl
      (PrimPeriodicSymCompare.representation_prepare_impl (a :: l)) = _
  rw [PrimPeriodicSymCompare.representation_prepare_impl, h,
    PrimPeriodicSymCompare.spatial_prepare_impl]

theorem prim_prepare_idem (X : List UnitCellCoord) :
    scPrepare .primPeriodic (scPrepare .primPeriodic X) = scPrepare .primPeriodic X := by
  cases X with
  | nil => rfl
  | cons a l =>
    have hYlen : (clusterSort (a :: l)).length = l.length + 1 := by
      rw [clusterSort_length]; rfl
    cases hY : clusterSort (a :: l) with
    | nil => rw [hY] at hYlen; simp at hYlen
    | cons p ys =>
      have hsortY : (p :: ys).Sorted uccLe := by rw [← hY]; exact clusterSort_sorted _
      have hinner := prim_prepare_cons a l p ys hY
      have hmapcons : (p :: ys).map (fun s => (⟨s.b, UnitCell.sub s.cell p.cell⟩ : UnitCellCoord))
          = ⟨p.b, UnitCell.zero⟩ :: ys.map (fun s => ⟨s.b, UnitCell.sub s.cell p.cell⟩) := by
        simp [UnitCell.sub_self]
      have hsorted : ((p :: ys).map
            (fun s => (⟨s.b, UnitCell.sub s.cell p.cell⟩ : UnitCellCoord))).Sorted uccLe :=
        sorted_map_shift_sub p.cell hsortY
      have hsortZ : clusterSort (⟨p.b, UnitCell.zero⟩ ::
            ys.map (fun s => (⟨s.b, UnitCell.sub s.cell p.cell⟩ : UnitCellCoord)))
          = ⟨p.b, UnitCell.zero⟩ :: ys.map (fun s => ⟨s.b, UnitCell.sub s.cell p.cell⟩) := by
        rw [← hmapcons]
        exact clusterSort_of_sorted hsorted
      have houter := prim_prepare_cons ⟨p.b, UnitCell.zero⟩
        (ys.map (fun s => ⟨s.b, UnitCell.sub s.cell p.cell⟩))
        ⟨p.b, UnitCell.zero⟩
        (ys.map (fun s => ⟨s.b, UnitCell.sub s.cell p.cell⟩)) hsortZ
      rw [hinner, hmapcons, houter]
      exact map_shift_sub_zero _

theorem aperiodic_prepare_idem (X : List UnitCellCoord) :
    scPrepare .aperiodic (scPrepare .aperiodic X) = scPrepare .aperiodic X := by
  show clusterSort (clusterSort X) = clusterSort X
  exact clusterSort_of_sorted (clusterSort_sorted X)

theorem scel_prepare_cons (n : UnitCell) (a : UnitCellCoord) (l : List UnitCellCoord)
    (p : UnitCellCoord) (ys : List UnitCellCoord) (h : clusterSort (a :: l) = p :: ys) :
    scPrepare (.scelPeriodic n) (a :: l)
      = (p :: ys).map (fun s =>
          ⟨s.b, UnitCell.add s.cell (UnitCell.sub (UnitCell.bringWithin n p.cell) p.cell)⟩) := by
  show ScelPeriodicSymCompare.spatial_prepare_impl n
      (ScelPeriodicSymCompare.representation_prepare_impl (a :: l)) = _
  rw [ScelPeriodicSymCompare.representation_prepare_impl, h,
    ScelPeriodicSymCompare.spatial_prepare_impl]

theorem scel_prepare_idem (n : UnitCell) (X : List UnitCellCoord) :
    scPrepare (.scelPeriodic n) (scPrepare (.scelPeriodic n) X) = scPrepare (.scelPeriodic n) X := by
  cases X with
  | nil => rfl
  | cons a l =>
    have hYlen : (clusterSort (a :: l)).length = l.length + 1 := by
      rw [clusterSort_length]; rfl
    cases hY : clusterSort (a :: l) with
    | nil => rw [hY] at hYlen; simp at hYlen
    | cons p ys =>
      have hsortY : (p :: ys).Sorted uccLe := by rw [← hY]; exact clusterSort_sorted _
      have hinner := scel_prepare_cons n a l p ys hY
      have hmapcons : (p :: ys).map (fun s =>
            (⟨s.b, UnitCell.add s.cell (UnitCell.sub (UnitCell.bringWithin n p.cell) p.cell)⟩ :
              UnitCellCoord))
          = ⟨p.b, UnitCell.bringWithin n p.cell⟩ :: ys.map (fun s =>
              ⟨s.b, UnitCell.add s.cell (UnitCell.sub (UnitCell.bringWithin n p.cell) p.cell)⟩) := by
        simp [UnitCell.add_bw_shift]
      have hsorted : ((p :: ys).map (fun s =>
            (⟨s.b, UnitCell.add s.cell (UnitCell.sub (UnitCell.bringWithin n p.cell) p.cell)⟩ :
              UnitCellCoord))).Sorted uccLe :=
        sorted_map_shift_add _ hsortY
      have hsortZ : clusterSort (⟨p.b, UnitCell.bringWithin n p.cell⟩ :: ys.map (fun s =>
            (⟨s.b, UnitCell.add s.cell (UnitCell.sub (UnitCell.bringWithin n p.cell) p.cell)⟩ :
              UnitCellCoord)))
          = ⟨p.b, UnitCell.bringWithin n p.cell⟩ :: ys.map (fun s =>
              ⟨s.b, UnitCell.add s.cell (UnitCell.sub (UnitCell.bringWithin n p.cell) p.cell)⟩) := by
        rw [← hmapcons]
        exact clusterSort_of_sorted hsorted
      have houter := scel_prepare_cons n ⟨p.b, UnitCell.bringWithin n p.cell⟩
        (ys.map (fun s =>
            ⟨s.b, UnitCell.add s.cell (UnitCell.sub (UnitCell.bringWithin n p.cell) p.cell)⟩))
        ⟨p.b, UnitCell.bringWithin n p.cell⟩
        (ys.map (fun s =>
            ⟨s.b, UnitCell.add s.cell (UnitCell.sub (UnitCell.bringWithin n p.cell) p.cell)⟩)) hsortZ
      rw [hinner, hmapcons, houter]
      have hc : UnitCell.sub
            (UnitCell.bringWithin n (UnitCell.bringWithin n p.cell))
            (UnitCell.bringWithin n p.cell) = UnitCell.zero := by
        rw [bringWithin_idem]
        exact UnitCell.sub_self _
      simp only [hc]
      exact map_shift_add_zero _

theorem withinScel_prepare_idem (n : UnitCell) (X : List UnitCellCoord) :
    scPrepare (.withinScel n) (scPrepare (.withinScel n) X) = scPrepare (.withinScel n) X := by
  cases X with
  | nil => rfl
  | cons a l =>
    have h1 : scPrepare (.withinScel n) (a :: l)
        = clusterSort ((a :: l).map (UnitCellCoord.bringWithin n)) := rfl
    have hlen : (clusterSort ((a :: l).map (UnitCellCoord.bringWithin n))).length
        = l.length + 1 := by
      rw [clusterSort_length]; simp
    cases hZ : clusterSort ((a :: l).map (UnitCellCoord.bringWithin n)) with
    | nil => rw [hZ] at hlen; simp at hlen
    | cons q zs =>
      have hfix : ∀ s ∈ q :: zs, UnitCellCoord.bringWithin n s = s := by
        intro s hs
        have hs2 : s ∈ (a :: l).map (UnitCellCoord.bringWithin n) := by
          have hp := (clusterSort_perm ((a :: l).map (UnitCellCoord.bringWithin n))).mem_iff
            (a := s)
          rw [hZ] at hp
          exact hp.mp hs
        obtain ⟨t, _, rfl⟩ := List.mem_map.mp hs2
        exact bringWithinSite_idem n t
      have hmapid : (q :: zs).map (UnitCellCoord.bringWithin n) = q :: zs := by
        calc (q :: zs).map (UnitCellCoord.bringWithin n)
            = (q :: zs).map id := List.map_congr_left hfix
          _ = q :: zs := List.map_id _
      have hsorted : (q :: zs).Sorted uccLe := by rw [← hZ]; exact clusterSort_sorted _
      have h2 : scPrepare (.withinScel n) (q :: zs)
          = clusterSort ((q :: zs).map (UnitCellCoord.bringWithin n)) := rfl
      rw [h1, hZ, h2, hmapid, clusterSort_of_sorted hsorted]

/-- Claim C10: for every SymCompare variant, applying spatial_prepare or
representation_prepare to the empty (0-site) cluster returns it
unchanged, so the empty cluster is its own prepared form under every
periodicity mode. -/
theorem C10_empty_cluster_fixed (v : SymCompareVariant) :
    scSpatialPrepare v [] = [] ∧ scReprPrepare v [] = [] := by
  cases v <;> exact ⟨rfl, rfl⟩

/-- Claim C7: for every cluster X and every SymCompare variant
(aperiodic, prim-periodic, supercell-periodic, within-supercell),
preparation is idempotent: prepare(prepare(X)) = prepare(X). -/
theorem C7_prepare_idempotent (v : SymCompareVariant) (X : List UnitCellCoord) :
    scPrepare v (scPrepare v X) = scPrepare v X := by
  cases v with
  | aperiodic => exact aperiodic_prepare_idem X
  | primPeriodic => exact prim_prepare_idem X
  | scelPeriodic n => exact scel_prepare_idem n X
  | withinScel n => exact withinScel_prepare_idem n X

/-- Claim C8: for every cluster not present in the tree, find() returns
the sentinel end value (whole-tree lookup: the total number of orbits;
within-branch lookup: the branch orbit count) without raising an
exception, and contains() returns false exactly when every branch lookup
returns its sentinel. -/
theorem C8_find_sentinel {Site : Type} (ctx : ClustCtx Site) (tree : MTree Site)
    (t : List Site)
    (h : ∀ br ∈ tree, ∀ o ∈ br.orbits, o.containsClust ctx t = false) :
    treeFind ctx tree t = totalOrbits tree
    ∧ (∀ br ∈ tree, treeFindInBranch ctx br t = br.orbits.length)
    ∧ (treeContains ctx tree t = false ↔
        ∀ br ∈ tree, treeFindInBranch ctx br t = br.orbits.length) := by
  refine ⟨?_, ?_, ?_⟩
  · induction tree with
    | nil => rfl
    | cons br rest ih =>
      have hbr : ∀ o ∈ br.orbits, o.containsClust ctx t = false :=
        h br (List.mem_cons_self br rest)
      have hidx : br.orbits.findIdx (fun o => o.containsClust ctx t) = br.orbits.length :=
        List.findIdx_eq_length_of_false hbr
      have hrest := ih (fun b hb => h b (List.mem_cons_of_mem br hb))
      unfold treeFind
      rw [hrest]
      unfold totalOrbits
      rw [List.map_cons, List.sum_cons]
      split
      · simp [hidx]
      · rfl
  · intro br hbr
    exact List.findIdx_eq_length_of_false (h br hbr)
  · unfold treeContains treeFindInBranch
    rw [List.any_eq_false]
    constructor
    · intro hall br hbr
      have := hall br hbr
      simp only [decide_eq_true_eq] at this
      exact Nat.le_antisymm (List.findIdx_le_length _) (Nat.not_lt.mp this)
    · intro hall br hbr
      simp only [decide_eq_true_eq]
      rw [hall br hbr]
      exact lt_irrefl _

theorem C8_find_sentinel_witness :
    treeFind natCtx natTree [5] = totalOrbits natTree :=
  (C8_find_sentinel natCtx natTree [5] (by decide)).1

/-- Claim C1: in the growth transition from branch np-1 to branch np, a
candidate cluster (an existing prototype plus one grid site, reduced by
within() with properties recomputed) is accepted as the prototype of a
new orbit iff it has exactly one site, or its max_length is below
max_length[np] and its min_length is above the global min_length; and in
both cases it is not already contained in the tree (equivalent, under
the acting group via contains, to an existing orbit). -/
theorem C1_accept_condition {Site : Type} (ctx : ClustCtx Site) (max_length : ℕ → ℚ)
    (min_length : ℚ) (np : ℕ) (tree : MTree Site) (proto : List Site) (s : Site)
    (hw : ∀ c, (ctx.within c).length = c.length)
    (hnp : proto.length + 1 = np) :
    candidateStep ctx max_length min_length np tree proto s =
      if ((ctx.within (proto ++ [s])).length = 1
            ∨ (ctx.max_length (ctx.within (proto ++ [s])) < max_length np
               ∧ min_length < ctx.min_length (ctx.within (proto ++ [s]))))
          ∧ treeContains ctx tree (ctx.within (proto ++ [s])) = false
      then pushOrbitAt tree np (mkOrbit ctx (ctx.within (proto ++ [s])))
      else tree := by
  have hlen : (ctx.within (proto ++ [s])).length = np := by
    rw [hw]
    simp [← hnp]
  rw [hlen]
  unfold candidateStep
  split_ifs <;> tauto

theorem C1_accept_condition_witness :
    candidateStep natCtx (fun _ => 10) 0 1 natTree00 [] 1 =
      pushOrbitAt natTree00 1 (mkOrbit natCtx (natCtx.within ([] ++ [1]))) := by
  rw [C1_accept_condition natCtx (fun _ => 10) 0 1 natTree00 [] 1 (fun c => rfl) rfl]
  decide

/-- Claim C2 counterexample: a candidate pair cluster whose max pairwise
length equals the branch cutoff max_length[np] exactly, passes the
min_length check and is not yet contained in the tree, is nevertheless
rejected by candidateStep (the source comparison is a strict <). -/
theorem C2_boundary_counterexample :
    candidateStep natCtx (fun _ => 2) 0 2 natTree0 [0] 1 = natTree0
    ∧ natCtx.max_length (natCtx.within ([0] ++ [1])) = (2 : ℚ)
    ∧ (0 : ℚ) < natCtx.min_length (natCtx.within ([0] ++ [1]))
    ∧ treeContains natCtx natTree0 (natCtx.within ([0] ++ [1])) = false := by
  refine ⟨?_, by decide, by decide, by decide⟩
  decide

/-- Claim C2 amended: a candidate of more than one site whose max
pairwise length equals the branch cutoff max_length[np] is rejected: the
boundary comparison of generate_orbitree is a plain strict <, so ties at
the cutoff go to exclusion, not inclusion. -/
theorem C2_boundary_rejection {Site : Type} (ctx : ClustCtx Site) (max_length : ℕ → ℚ)
    (min_length : ℚ) (np : ℕ) (tree : MTree Site) (proto : List Site) (s : Site)
    (hnp : np ≠ 1)
    (heq : ctx.max_length (ctx.within (proto ++ [s])) = max_length np) :
    candidateStep ctx max_length min_length np tree proto s = tree := by
  unfold candidateStep
  rw [heq]
  simp [hnp]

theorem C2_boundary_rejection_witness :
    candidateStep natCtx (fun _ => 2) 0 2 natTree0 [0] 1 = natTree0 :=
  C2_boundary_rejection natCtx (fun _ => 2) 0 2 natTree0 [0] 1 (by decide) (by decide)

/-- Claim C3 counterexample: a local-orbitree enumeration run that hits
an empty branch before the target size does not fail: it returns the
incomplete tree (the source prints a WARNING and returns; the
exit(1) is commented out), while the plain generate_orbitree run on the
same input exits fatally. -/
theorem C3_local_counterexample :
    growLoopLocal natCtx (fun _ => 10) 0 ([] : List ℕ) [1, 2] natTree00 = natTree00
    ∧ (branchAt natTree00 1).orbits.length = 0
    ∧ growLoop natCtx (fun _ => 10) 0 ([] : List ℕ) [1, 2] natTree00 = Except.error 2 := by
  exact ⟨by decide, by decide, rfl⟩

/-- Claim C3 amended: when branch np-1 is empty before the target size,
generate_orbitree (both the fixed-radius and the max-cluster-count
drivers share this loop head) fails fatally with an error identifying
the cluster size np it could not enumerate, while generate_local_orbitree
prints a warning and returns the tree built so far. -/
theorem C3_empty_branch {Site : Type} (ctx : ClustCtx Site) (max_length : ℕ → ℚ)
    (min_length : ℚ) (grid : List Site) (np : ℕ) (rest : List ℕ) (tree : MTree Site)
    (h : (branchAt tree (np - 1)).orbits.length = 0) :
    growLoop ctx max_length min_length grid (np :: rest) tree = Except.error np
    ∧ growLoopLocal ctx max_length min_length grid (np :: rest) tree = tree := by
  constructor
  · unfold growLoop
    rw [if_pos h]
  · unfold growLoopLocal
    rw [if_pos h]

theorem C3_empty_branch_witness :
    growLoop natCtx (fun _ => 10) 0 ([] : List ℕ) [2] natTree00 = Except.error 2
    ∧ growLoopLocal natCtx (fun _ => 10) 0 ([] : List ℕ) [2] natTree00 = natTree00 :=
  C3_empty_branch natCtx (fun _ => 10) 0 [] 2 [] natTree00 (by decide)

/-- Claim C9: when building an Orbitree from a user-supplied prototype
file, if the declared number of equivalents of any prototype differs
from the number actually generated under the supplied symmetry group,
the build aborts fatally with a diagnostic identifying the offending
prototype, rather than returning a incompletely populated tree. -/
theorem C9_proto_mismatch_fatal {Site : Type} (ctx : ClustCtx Site)
    (protos : List (List Site × ℕ)) (tree : MTree Site)
    (h : ∃ pr ∈ protos, pr.2 ≠ (mkOrbit ctx pr.1).equivalents.length) :
    ∃ e : ProtoMismatch Site,
      generateFromProtoList ctx protos tree = Except.error e
      ∧ (e.proto, e.declared) ∈ protos
      ∧ e.declared ≠ e.generated
      ∧ e.generated = (mkOrbit ctx e.proto).equivalents.length := by
  induction protos generalizing tree with
  | nil => simp at h
  | cons pr rest ih =>
    obtain ⟨p, ne⟩ := pr
    by_cases hne : ne ≠ (mkOrbit ctx p).equivalents.length
    · refine ⟨⟨p, ne, (mkOrbit ctx p).equivalents.length⟩, ?_, ?_, hne, rfl⟩
      · unfold generateFromProtoList
        rw [if_pos hne]
      · exact List.mem_cons_self _ _
    · have hne2 : ne = (mkOrbit ctx p).equivalents.length := not_not.mp hne
      obtain ⟨q, hq, hqne⟩ := h
      have hqrest : q ∈ rest := by
        rcases List.mem_cons.mp hq with hq1 | hq2
        · exfalso
          rw [hq1] at hqne
          exact hqne hne2
        · exact hq2
      obtain ⟨e, he1, he2, he3, he4⟩ :=
        ih (pushOrbitAt tree p.length (mkOrbit ctx p)) ⟨q, hqrest, hqne⟩
      refine ⟨e, ?_, List.mem_cons_of_mem _ he2, he3, he4⟩
      unfold generateFromProtoList
      rw [if_neg hne]
      exact he1

theorem C9_proto_mismatch_fatal_witness :
    ∃ e : ProtoMismatch ℕ,
      generateFromProtoList natCtx [([0], 5)] natTree0 = Except.error e
      ∧ (e.proto, e.declared) ∈ [([0], 5)]
      ∧ e.declared ≠ e.generated
      ∧ e.generated = (mkOrbit natCtx e.proto).equivalents.length :=
  C9_proto_mismatch_fatal natCtx [([0], 5)] natTree0 ⟨([0], 5), by decide, by decide⟩

theorem mem_removeOverCutoff {Site : Type} (olen : MOrbit Site → ℚ) (cutOff : ℚ)
    (l : List (MOrbit Site)) (o : MOrbit Site) :
    o ∈ removeOverCutoff olen cutOff l ↔ o ∈ l ∧ olen o ≤ cutOff := by
  induction l with
  | nil => simp [removeOverCutoff]
  | cons a rest ih =>
    unfold removeOverCutoff
    split
    · rename_i hgt
      rw [ih]
      constructor
      · rintro ⟨h1, h2⟩
        exact ⟨List.mem_cons_of_mem _ h1, h2⟩
      · rintro ⟨h1, h2⟩
        rcases List.mem_cons.mp h1 with rfl | h3
        · exact absurd h2 (not_le.mpr hgt)
        · exact ⟨h3, h2⟩
    · rename_i hle
      rw [List.mem_cons, ih, List.mem_cons]
      constructor
      · rintro (rfl | ⟨h1, h2⟩)
        · exact ⟨Or.inl rfl, not_lt.mp hle⟩
        · exact ⟨Or.inr h1, h2⟩
      · rintro ⟨rfl | h1, h2⟩
        · exact Or.inl rfl
        · exact Or.inr ⟨h1, h2⟩

theorem growGridLoop_found (numFound : ℕ → ℕ) (maxClust : ℕ) :
    ∀ fuel ctr c, growGridLoop numFound maxClust fuel ctr = some c →
      maxClust ≤ numFound c := by
  intro fuel
  induction fuel with
  | zero =>
    intro ctr c h
    exact absurd h (by simp [growGridLoop])
  | succ n ih =>
    intro ctr c h
    unfold growGridLoop at h
    split at h
    · rename_i hge
      injection h with h2
      rw [← h2]
      exact hge
    · exact ih _ _ h

theorem sorted_le_at {Site : Type} (olen : MOrbit Site → ℚ) (l : List (MOrbit Site))
    (hsorted : l.Pairwise (fun a b => olen a ≤ olen b))
    (i j : ℕ) (hi : i < l.length) (hj : j < l.length) (hij : i ≤ j) :
    olen (l.getD i ⟨[], []⟩) ≤ olen (l.getD j ⟨[], []⟩) := by
  rw [List.getD_eq_getElem l _ hi, List.getD_eq_getElem l _ hj]
  rcases Nat.lt_or_ge i j with h | h
  · exact List.pairwise_iff_getElem.mp hsorted i j hi hj h
  · have hh : i = j := le_antisymm hij h
    subst hh
    exact le_refl _

/-- Claim C5: in the fixed max-cluster-count mode, the candidate grid is
grown until at least maxClust pair clusters are found; then, with the
cutoff the max_length of the orbit at sorted index maxClust-1, every
orbit with max_length strictly above the cutoff is dropped and every
orbit with max_length at most the cutoff (in particular, equal to it) is
kept. -/
theorem C5_maxclust_cutoff {Site : Type} (olen : MOrbit Site → ℚ)
    (numFound : ℕ → ℕ) (maxClust fuel ctr c : ℕ)
    (orbits : List (MOrbit Site))
    (hm : 1 ≤ maxClust) (hlen : maxClust ≤ orbits.length)
    (hsorted : orbits.Pairwise (fun a b => olen a ≤ olen b)) :
    (growGridLoop numFound maxClust fuel ctr = some c → maxClust ≤ numFound c)
    ∧ (∀ o ∈ maxClustTruncate olen maxClust orbits,
        olen o ≤ olen (orbits.getD (maxClust - 1) ⟨[], []⟩))
    ∧ (∀ o ∈ orbits, olen o ≤ olen (orbits.getD (maxClust - 1) ⟨[], []⟩) →
        o ∈ maxClustTruncate olen maxClust orbits) := by
  have hm1 : maxClust - 1 < orbits.length := by omega
  refine ⟨growGridLoop_found numFound maxClust fuel ctr c, ?_, ?_⟩
  · intro o ho
    simp only [maxClustTruncate] at ho
    rcases List.mem_append.mp ho with htake | hdrop
    · obtain ⟨i, hilt, hio⟩ := List.mem_iff_getElem.mp htake
      have hlt : i < maxClust := by
        have := hilt
        rw [List.length_take] at this
        omega
      have hilen : i < orbits.length := by
        have := hilt
        rw [List.length_take] at this
        omega
      have hval : (orbits.take maxClust)[i] = orbits[i] := List.getElem_take _
      have hle := sorted_le_at olen orbits hsorted i (maxClust - 1) hilen hm1 (by omega)
      rw [List.getD_eq_getElem orbits _ hilen] at hle
      rw [← hio, hval]
      exact hle
    · exact ((mem_removeOverCutoff olen _ _ o).mp hdrop).2
  · intro o ho hle
    rw [← List.take_append_drop maxClust orbits] at ho
    simp only [maxClustTruncate]
    rcases List.mem_append.mp ho with htake | hdrop
    · exact List.mem_append.mpr (Or.inl htake)
    · exact List.mem_append.mpr (Or.inr ((mem_removeOverCutoff olen _ _ o).mpr ⟨hdrop, hle⟩))

theorem C5_maxclust_cutoff_witness :
    (⟨[1], [[1]]⟩ : MOrbit ℕ) ∈
      maxClustTruncate (fun o => (o.prototype.length : ℚ)) 1
        [⟨[0], [[0]]⟩, ⟨[1], [[1]]⟩] :=
  (C5_maxclust_cutoff (fun o => (o.prototype.length : ℚ)) (fun n => n) 1 3 0 1
      [⟨[0], [[0]]⟩, ⟨[1], [[1]]⟩]
      (by decide) (by decide) (by decide)).2.2
    ⟨[1], [[1]]⟩ (by decide) (by decide)

/-- Claim C6: the claimed hierarchy table is wrong on the code.  In
get_hierarchy the cluster variable tclust is declared once per orbit and
never cleared inside the subset-counter loop, so the sites of successive
subsets accumulate.  For the pair prototype [0, 1] in the concrete tree
natTree, the code produces entries [1, 3]: the second entry is find() of
the accumulated cluster [0, 1] (the orbit of the full prototype, linear
index 3) instead of find() of the subset [1] (the point orbit, linear
index 2) that the spec prescribes. -/
theorem C6_hierarchy_accumulation_bug :
    getHierarchyOrbit natCtx natTree [0, 1] = [1, 3]
    ∧ getHierarchyOrbitSpec natCtx natTree [0, 1] = [1, 2]
    ∧ getHierarchyOrbit natCtx natTree [0, 1] ≠ getHierarchyOrbitSpec natCtx natTree [0, 1] := by
  exact ⟨by decide, by decide, by decide⟩

theorem foldl_min_choice {C : Type} (cmp : C → C → Bool) :
    ∀ (l : List C) (a : C),
      l.foldl (fun m x => if cmp x m then x else m) a = a
      ∨ l.foldl (fun m x => if cmp x m then x else m) a ∈ l := by
  intro l
  induction l with
  | nil => intro a; exact Or.inl rfl
  | cons b t ih =>
    intro a
    rw [List.foldl_cons]
    rcases ih (if cmp b a then b else a) with h | h
    · rw [h]
      split
      · exact Or.inr (List.mem_cons_self _ _)
      · exact Or.inl rfl
    · exact Or.inr (List.mem_cons_of_mem _ h)

/-- Claim C4: for every orbit produced by the modelled get_equivalent and
get_cluster_symmetry under a finite acting group whose preparation is
compatible with the action, the number of distinct equivalents times the
size of the invariant subgroup (stabilizer) of the prototype equals the
order of the acting group. -/
theorem C4_orbit_stabilizer {G C : Type} [Group G] [Fintype G] [DecidableEq G]
    [DecidableEq C] [MulAction G C]
    (prep : C → C) (cmp : C → C → Bool) (gs : List G) (seed : C)
    (hnd : gs.Nodup) (hall : ∀ g : G, g ∈ gs)
    (hidem : ∀ x, prep (prep x) = prep x)
    (hcong : ∀ (g : G) (x y : C), prep x = prep y → prep (g • x) = prep (g • y)) :
    (orbitEquivalents prep gs seed).length *
      (invariantSubgroupList prep gs
        (orbitPrototype cmp ((orbitEquivalents prep gs seed).headD (prep seed))
          (orbitEquivalents prep gs seed))).length
      = Fintype.card G := by
  have hgs_ne : gs ≠ [] := by
    intro h0
    have h1 := hall 1
    rw [h0] at h1
    exact absurd h1 (List.not_mem_nil 1)
  have hEne : orbitEquivalents prep gs seed ≠ [] := by
    unfold orbitEquivalents
    rw [Ne, List.dedup_eq_nil, List.map_eq_nil_iff]
    exact hgs_ne
  have hmem : orbitPrototype cmp ((orbitEquivalents prep gs seed).headD (prep seed))
      (orbitEquivalents prep gs seed) ∈ orbitEquivalents prep gs seed := by
    unfold orbitPrototype
    rcases foldl_min_choice cmp (orbitEquivalents prep gs seed)
        ((orbitEquivalents prep gs seed).headD (prep seed)) with h | h
    · rw [h]
      cases hc : orbitEquivalents prep gs seed with
      | nil => exact absurd hc hEne
      | cons e es => exact List.mem_cons_self _ _
    · exact h
  set proto := orbitPrototype cmp ((orbitEquivalents prep gs seed).headD (prep seed))
    (orbitEquivalents prep gs seed) with hproto
  obtain ⟨g0, hg0mem, hg0⟩ : ∃ g0, g0 ∈ gs ∧ prep (g0 • seed) = proto := by
    have h2 : proto ∈ gs.map (fun g => prep (g • seed)) := List.mem_dedup.mp hmem
    obtain ⟨g0, hg0mem, hg0⟩ := List.mem_map.mp h2
    exact ⟨g0, hg0mem, hg0⟩
  have hprep_proto : prep proto = proto := by
    rw [← hg0]
    exact hidem _
  have hA : prep (g0⁻¹ • proto) = prep seed := by
    have h1 : prep proto = prep (g0 • seed) := by
      rw [hprep_proto]
      exact hg0.symm
    have h2 := hcong g0⁻¹ proto (g0 • seed) h1
    rw [inv_smul_smul] at h2
    exact h2
  have key1 : ∀ g : G, prep (g • seed) = prep ((g * g0⁻¹) • proto) := by
    intro g
    have h2 := hcong g (g0⁻¹ • proto) seed hA
    rw [smul_smul] at h2
    exact h2.symm
  have himg : Finset.univ.image (fun g : G => prep (g • seed))
      = Finset.univ.image (fun g : G => prep (g • proto)) := by
    apply Finset.ext
    intro c
    simp only [Finset.mem_image, Finset.mem_univ, true_and]
    constructor
    · rintro ⟨g, rfl⟩
      exact ⟨g * g0⁻¹, (key1 g).symm⟩
    · rintro ⟨g, rfl⟩
      refine ⟨g * g0, ?_⟩
      rw [key1 (g * g0), mul_inv_cancel_right]
  have hfib : ∀ c ∈ Finset.univ.image (fun g : G => prep (g • proto)),
      (Finset.univ.filter (fun g : G => prep (g • proto) = c)).card
        = (Finset.univ.filter (fun g : G => prep (g • proto) = proto)).card := by
    intro c hc
    obtain ⟨h, _, hh⟩ := Finset.mem_image.mp hc
    apply Finset.card_bij' (fun g _ => h⁻¹ * g) (fun g _ => h * g)
    · intro a ha
      rw [Finset.mem_filter] at ha ⊢
      refine ⟨Finset.mem_univ _, ?_⟩
      have h3 : prep (a • proto) = prep (h • proto) := by
        rw [ha.2, hh]
      have h4 := hcong h⁻¹ (a • proto) (h • proto) h3
      rw [inv_smul_smul, hprep_proto] at h4
      rw [mul_smul]
      exact h4
    · intro a ha
      rw [Finset.mem_filter] at ha ⊢
      refine ⟨Finset.mem_univ _, ?_⟩
      have h3 : prep (a • proto) = prep proto := by
        rw [hprep_proto]
        exact ha.2
      have h4 := hcong h (a • proto) proto h3
      rw [mul_smul, h4, hh]
    · intro a _
      rw [mul_inv_cancel_left]
    · intro a _
      rw [inv_mul_cancel_left]
  have hcount : Fintype.card G
      = (Finset.univ.image (fun g : G => prep (g • proto))).card *
        (Finset.univ.filter (fun g : G => prep (g • proto) = proto)).card := by
    have h1 := Finset.card_eq_sum_card_fiberwise
      (f := fun g : G => prep (g • proto)) (s := Finset.univ)
      (t := Finset.univ.image (fun g : G => prep (g • proto)))
      (fun x _ => Finset.mem_image_of_mem _ (Finset.mem_univ x))
    rw [Finset.card_univ] at h1
    rw [h1, Finset.sum_congr rfl hfib, Finset.sum_const, smul_eq_mul]
  have hElen : (orbitEquivalents prep gs seed).length
      = (Finset.univ.image (fun g : G => prep (g • seed))).card := by
    unfold orbitEquivalents
    rw [← List.card_toFinset]
    congr 1
    apply Finset.ext
    intro c
    simp only [List.mem_toFinset, List.mem_map, Finset.mem_image, Finset.mem_univ, true_and]
    constructor
    · rintro ⟨g, _, rfl⟩
      exact ⟨g, rfl⟩
    · rintro ⟨g, rfl⟩
      exact ⟨g, hall g, rfl⟩
  have hstab : (invariantSubgroupList prep gs proto).length
      = (Finset.univ.filter (fun g : G => prep (g • proto) = proto)).card := by
    unfold invariantSubgroupList
    have hnd2 : (gs.filter (fun g => decide (prep (g • proto) = proto))).Nodup :=
      hnd.filter _
    rw [← List.toFinset_card_of_nodup hnd2]
    congr 1
    apply Finset.ext
    intro g
    simp only [List.mem_toFinset, List.mem_filter, Finset.mem_filter, Finset.mem_univ,
      true_and, decide_eq_true_eq]
    constructor
    · rintro ⟨_, h2⟩
      exact h2
    · intro h2
      exact ⟨hall g, h2⟩
  rw [hElen, hstab, himg]
  exact hcount.symm

theorem C4_orbit_stabilizer_witness :
    (orbitEquivalents (id : Multiplicative (ZMod 2) → Multiplicative (ZMod 2))
        [(1 : Multiplicative (ZMod 2)), Multiplicative.ofAdd 1] 1).length *
      (invariantSubgroupList id [(1 : Multiplicative (ZMod 2)), Multiplicative.ofAdd 1]
        (orbitPrototype (fun _ _ => false)
          ((orbitEquivalents (id : Multiplicative (ZMod 2) → Multiplicative (ZMod 2))
              [(1 : Multiplicative (ZMod 2)), Multiplicative.ofAdd 1] 1).headD (id 1))
          (orbitEquivalents (id : Multiplicative (ZMod 2) → Multiplicative (ZMod 2))
            [(1 : Multiplicative (ZMod 2)), Multiplicative.ofAdd 1] 1))).length
      = Fintype.card (Multiplicative (ZMod 2)) :=
  C4_orbit_stabilizer id (fun _ _ => false)
    [(1 : Multiplicative (ZMod 2)), Multiplicative.ofAdd 1] 1
    (by decide) (by decide) (fun _ => rfl)
    (fun g x y h => congrArg (fun z => id (g • z)) h)
